import Mathlib

/-!
Verification development for the real-time co-simulation driver
`FMU_CPP_Wrapper/run_simulation_with_cpp_wrapper_fmu_wall_clock.py`.

The Python script drives an FMU 2.0 co-simulation slave in real time:
it resolves the value references of the variables `u` and `y` from the
model description, instantiates and initializes the slave, then runs

    sim_time = start_time
    real_world_start_time = wall_clock.perf_counter()
    while sim_time < stop_time:
        target_real_time = real_world_start_time + sim_time
        sleep_duration = target_real_time - wall_clock.perf_counter()
        if sleep_duration > 0: wall_clock.sleep(sleep_duration)
        u_signal_value = u(sim_time)
        fmu.setReal([vr_u], [u_signal_value])
        fmu.doStep(currentCommunicationPoint=sim_time, communicationStepSize=step_size)
        output_y = fmu.getReal([vr_y])[0]
        results.append((sim_time, u_signal_value, output_y))
        sim_time += step_size
    fmu.terminate()
    fmu.freeInstance()

Modelling choices, all translated from that source:
* real arithmetic is modelled exactly over `ℚ` (the script's constants
  `start_time = 0.0`, `stop_time = 100.0`, `step_size = 0.1` become the
  exact rationals `0`, `100`, `1/10`);
* the wall clock `perf_counter` is an oracle `clock : ℕ → ℚ` consumed one
  reading per call site: reading `0` is `real_world_start_time`, reading
  `n + 1` is the reading taken inside loop iteration `n`;
* the slave (the FMU, an external collaborator) is an oracle
  `SlaveOracle`, giving for each iteration index whether `setReal` and
  `doStep` succeed (fmpy raises an exception on a non-OK status) and what
  `getReal` returns;
* the input function `u` is a parameter (the script instantiates it with
  `numpy.sin(sim_time * numpy.pi)`, a transcendental function external to
  the control flow verified here);
* the `while` loop becomes a fuel-indexed recursion; running out of fuel
  yields `none`, and fuel adequacy is proved, so `some` results are
  exactly the terminating executions of the script;
* every externally visible action of the script (FMU calls, sleeps,
  appends to `results`) is recorded in an event trace, and the value of
  the intermediate expression `target_real_time` of each iteration is
  recorded in a ghost list `targets` so that the pacing deadline can be
  spoken about; the `results` field of an errored run is the value of the
  loop-local `results` list at the moment the exception propagates (the
  script itself discards it: the exception carries only a message).
-/

namespace FmuSandbox

/-- One entry of the script's `results` list: `(sim_time, u_signal_value, output_y)`. -/
structure Sample where
  time : ℚ
  u : ℚ
  y : ℚ
deriving DecidableEq

/-- Errors raised inside the loop body: fmpy raises an exception whenever
`setReal`, `doStep` or `getReal` returns a non-OK status.  The payload is
the iteration index at which the call failed; like the Python exception,
it carries no recorded data. -/
inductive SimError where
  | setRealFailed (n : ℕ)
  | doStepFailed (n : ℕ)
  | getRealFailed (n : ℕ)
deriving DecidableEq

/-- Errors of the whole run: a `KeyError` on the value-reference dictionary
(the spec's `UnknownSignal`), or an error propagated from the loop. -/
inductive ProgError where
  | unknownSignal (name : String)
  | sim (e : SimError)
deriving DecidableEq

/-- Externally visible actions of the script, in the order performed. -/
inductive Event where
  | instantiate
  | setupExperiment (startT stopT : ℚ)
  | enterInitializationMode
  | exitInitializationMode
  | sleep (d : ℚ)
  | setReal (vr : ℕ) (v : ℚ)
  | doStep (t dt : ℚ)
  | getReal (vr : ℕ)
  | record (s : Sample)
  | terminate
  | freeInstance
deriving DecidableEq

/-- The co-simulation slave as a response oracle, indexed by the loop
iteration in which the call is made: whether the `n`-th `setReal` and
`doStep` calls succeed, and the `n`-th `getReal` result (`none` models a
raised exception). -/
structure SlaveOracle where
  setRealOk : ℕ → Bool
  doStepOk : ℕ → Bool
  getRealVal : ℕ → Option ℚ

/-- Final state of the stepping loop: outcome, the `results` list, the
ghost list of per-iteration `target_real_time` values, and the event
trace of the loop body. -/
structure LoopResult where
  outcome : Except SimError Unit
  results : List Sample
  targets : List ℚ
  trace : List Event

/-- Final state of a whole run, with errors widened to `ProgError` and the
setup / teardown events included in the trace. -/
structure RunResult where
  outcome : Except ProgError Unit
  results : List Sample
  targets : List ℚ
  trace : List Event

/-- Pacing actions of one iteration, from lines 56-60 of the script:
`target_real_time = origin + sim_time`, `sleep_duration = target_real_time
- now`, and a sleep happens exactly when the duration is positive. -/
def pacerEvts (origin simTime nowv : ℚ) : List Event :=
  if 0 < origin + simTime - nowv then [Event.sleep (origin + simTime - nowv)] else []

/-- The script's `while sim_time < stop_time` loop, one constructor-level
translation of lines 53-76.  `fuel` bounds the number of iterations still
allowed (`none` = fuel exhausted before the loop ended); `simTime` is the
loop variable `sim_time`; `n` is the iteration index, used to address the
clock and slave oracles. -/
def loopGo (stop step : ℚ) (u : ℚ → ℚ) (sl : SlaveOracle) (clock : ℕ → ℚ)
    (origin : ℚ) (vru vry : ℕ) : ℕ → ℚ → ℕ → Option LoopResult
  | 0, simTime, _ =>
    if simTime < stop then none else some ⟨Except.ok (), [], [], []⟩
  | fuel + 1, simTime, n =>
    if simTime < stop then
      if sl.setRealOk n then
        if sl.doStepOk n then
          match sl.getRealVal n with
          | some y =>
            match loopGo stop step u sl clock origin vru vry fuel (simTime + step) (n + 1) with
            | none => none
            | some r =>
              some ⟨r.outcome,
                    ⟨simTime, u simTime, y⟩ :: r.results,
                    (origin + simTime) :: r.targets,
                    pacerEvts origin simTime (clock (n + 1)) ++
                      Event.setReal vru (u simTime) :: Event.doStep simTime step ::
                      Event.getReal vry :: Event.record ⟨simTime, u simTime, y⟩ :: r.trace⟩
          | none =>
            some ⟨Except.error (SimError.getRealFailed n), [], [origin + simTime],
                  pacerEvts origin simTime (clock (n + 1)) ++
                    [Event.setReal vru (u simTime), Event.doStep simTime step, Event.getReal vry]⟩
        else
          some ⟨Except.error (SimError.doStepFailed n), [], [origin + simTime],
                pacerEvts origin simTime (clock (n + 1)) ++
                  [Event.setReal vru (u simTime), Event.doStep simTime step]⟩
      else
        some ⟨Except.error (SimError.setRealFailed n), [], [origin + simTime],
              pacerEvts origin simTime (clock (n + 1)) ++ [Event.setReal vru (u simTime)]⟩
    else some ⟨Except.ok (), [], [], []⟩

/-- Lookup in the dictionary `vrs = {v.name: v.valueReference for v in
modelVariables}` (line 29): a Python dict comprehension keeps the last
binding of a repeated key, hence the lookup on the reversed list. -/
def vrsLookup (vars : List (String × ℕ)) (name : String) : Option ℕ :=
  vars.reverse.lookup name

/-- Lines 30-31 of the script: `vr_u = vrs['u']; vr_y = vrs['y']`.  A
missing key raises (the spec's `UnknownSignal`); this happens before the
slave is instantiated and is a pure lookup. -/
def resolveSignals (vars : List (String × ℕ)) : Except ProgError (ℕ × ℕ) :=
  match vrsLookup vars "u" with
  | none => Except.error (ProgError.unknownSignal "u")
  | some vru =>
    match vrsLookup vars "y" with
    | none => Except.error (ProgError.unknownSignal "y")
    | some vry => Except.ok (vru, vry)

/-- Lines 40-43: instantiate, setupExperiment, enterInitializationMode,
exitInitializationMode, performed in this order before the loop. -/
def setupEvents (start stop : ℚ) : List Event :=
  [Event.instantiate, Event.setupExperiment start stop,
   Event.enterInitializationMode, Event.exitInitializationMode]

/-- The whole run of `main` (after the model description is read): resolve
the value references, instantiate and initialize the slave, read the
wall-clock origin once (`real_world_start_time = perf_counter()`, reading
index 0), run the loop, and — only when the loop completed normally —
terminate and free the instance.  On a loop error the exception propagates
and the teardown calls at lines 79-80 are skipped, exactly as in the
source, which has no try/finally. -/
def runWithWallClock (vars : List (String × ℕ)) (start stop step : ℚ)
    (u : ℚ → ℚ) (sl : SlaveOracle) (clock : ℕ → ℚ) (fuel : ℕ) : Option RunResult :=
  match resolveSignals vars with
  | Except.error e => some ⟨Except.error e, [], [], []⟩
  | Except.ok (vru, vry) =>
    match loopGo stop step u sl clock (clock 0) vru vry fuel start 0 with
    | none => none
    | some r =>
      match r.outcome with
      | Except.ok () =>
        some ⟨Except.ok (), r.results, r.targets,
              setupEvents start stop ++ r.trace ++ [Event.terminate, Event.freeInstance]⟩
      | Except.error e =>
        some ⟨Except.error (ProgError.sim e), r.results, r.targets,
              setupEvents start stop ++ r.trace⟩

/-- Simulation start time, line 12 of the script (`start_time = 0.0`). -/
def start_time : ℚ := 0

/-- Simulation stop time, line 13 of the script (`stop_time = 100.0`). -/
def stop_time : ℚ := 100

/-- Communication step size, line 14 of the script (`step_size = 0.1`). -/
def step_size : ℚ := 1 / 10

/-- The run of `main` at the script's own schedule constants. -/
def mainRun (vars : List (String × ℕ)) (u : ℚ → ℚ) (sl : SlaveOracle)
    (clock : ℕ → ℚ) (fuel : ℕ) : Option RunResult :=
  runWithWallClock vars start_time stop_time step_size u sl clock fuel

/-- Simulated time of step `n`: `start_time + n * step_size`.  In the
script `sim_time` is accumulated by `sim_time += step_size`; over exact
rationals the loop variable at iteration `n` equals this value. -/
def simTimeAt (start step : ℚ) (n : ℕ) : ℚ := start + n * step

/-- Number of iterations the `while sim_time < stop_time` loop performs
when no error occurs (exact over ℚ). -/
def iterCount (start stop step : ℚ) : ℕ := (⌈(stop - start) / step⌉).toNat

/-- Value of `target_real_time` computed at iteration `n` (line 56). -/
def targetAt (origin start step : ℚ) (n : ℕ) : ℚ :=
  origin + simTimeAt start step n

/-- The sample appended at a successful iteration `n`. -/
def sampleAt (start step : ℚ) (u : ℚ → ℚ) (sl : SlaveOracle) (n : ℕ) : Sample :=
  ⟨simTimeAt start step n, u (simTimeAt start step n), (sl.getRealVal n).getD 0⟩

/-- The pacing events of iteration `n`. -/
def sleepEvtsAt (origin start step : ℚ) (clock : ℕ → ℚ) (n : ℕ) : List Event :=
  pacerEvts origin (simTimeAt start step n) (clock (n + 1))

/-- The full event block of a successful iteration `n`: optional sleep,
then `setReal`, `doStep`, `getReal`, and the append to `results`. -/
def blockAt (vru vry : ℕ) (origin start step : ℚ) (u : ℚ → ℚ) (sl : SlaveOracle)
    (clock : ℕ → ℚ) (n : ℕ) : List Event :=
  sleepEvtsAt origin start step clock n ++
    [Event.setReal vru (u (simTimeAt start step n)),
     Event.doStep (simTimeAt start step n) step,
     Event.getReal vry,
     Event.record (sampleAt start step u sl n)]

/-- All three slave calls of iteration `n` succeed. -/
def okAt (sl : SlaveOracle) (n : ℕ) : Prop :=
  sl.setRealOk n = true ∧ sl.doStepOk n = true ∧ (sl.getRealVal n).isSome = true

instance (sl : SlaveOracle) (n : ℕ) : Decidable (okAt sl n) := by
  unfold okAt; infer_instance

/-- The error with which iteration `k` fails when `okAt sl k` does not hold
(the first failing call of the iteration wins). -/
def failErrAt (sl : SlaveOracle) (k : ℕ) : SimError :=
  if sl.setRealOk k = false then SimError.setRealFailed k
  else if sl.doStepOk k = false then SimError.doStepFailed k
  else SimError.getRealFailed k

/-- The slave calls that iteration `k` still performs before its failing
call raises. -/
def failEvtsAt (vru vry : ℕ) (start step : ℚ) (u : ℚ → ℚ) (sl : SlaveOracle)
    (k : ℕ) : List Event :=
  if sl.setRealOk k = false then
    [Event.setReal vru (u (simTimeAt start step k))]
  else if sl.doStepOk k = false then
    [Event.setReal vru (u (simTimeAt start step k)),
     Event.doStep (simTimeAt start step k) step]
  else
    [Event.setReal vru (u (simTimeAt start step k)),
     Event.doStep (simTimeAt start step k) step, Event.getReal vry]

/-! Arithmetic facts about the simulated-time grid. -/

theorem simTimeAt_zero (start step : ℚ) : simTimeAt start step 0 = start := by
  simp [simTimeAt]

theorem simTimeAt_succ (start step : ℚ) (n : ℕ) :
    simTimeAt start step n + step = simTimeAt start step (n + 1) := by
  unfold simTimeAt; push_cast; ring

theorem simTimeAt_mono (start step : ℚ) (hstep : 0 < step) {m n : ℕ} (h : m ≤ n) :
    simTimeAt start step m ≤ simTimeAt start step n := by
  unfold simTimeAt
  have hc : (m : ℚ) ≤ n := by exact_mod_cast h
  nlinarith

theorem simTimeAt_strictMono (start step : ℚ) (hstep : 0 < step) {m n : ℕ} (h : m < n) :
    simTimeAt start step m < simTimeAt start step n := by
  unfold simTimeAt
  have hc : (m : ℚ) < n := by exact_mod_cast h
  nlinarith

/-- The loop guard `sim_time < stop_time` at iteration `n` holds exactly
when `n` is below the iteration count of the schedule. -/
theorem simTimeAt_lt_iff (start stop step : ℚ) (hstep : 0 < step) (n : ℕ) :
    simTimeAt start step n < stop ↔ n < iterCount start stop step := by
  unfold simTimeAt iterCount
  rw [Int.lt_toNat, Int.lt_ceil, lt_div_iff hstep]
  push_cast
  constructor <;> intro h <;> linarith

/-- Shifting the index of a mapped range by one. -/
theorem map_range_shift {α : Type} (g : ℕ → α) (k n : ℕ) :
    (List.range k).map (fun i => g (n + (i + 1))) = (List.range k).map (fun i => g (n + 1 + i)) := by
  apply List.map_congr_left
  intro i _
  congr 1
  omega

/-! Characterization of the loop on schedules where every slave call
succeeds: the while loop runs for exactly `iterCount` iterations and its
final state is given in closed form. -/

theorem loopGo_ok_spec (stop step : ℚ) (u : ℚ → ℚ) (sl : SlaveOracle) (clock : ℕ → ℚ)
    (origin : ℚ) (vru vry : ℕ) (start : ℚ) (hstep : 0 < step)
    (hok : ∀ m, m < iterCount start stop step → okAt sl m) :
    ∀ fuel n, iterCount start stop step ≤ n + fuel →
      loopGo stop step u sl clock origin vru vry fuel (simTimeAt start step n) n =
        some ⟨Except.ok (),
              (List.range (iterCount start stop step - n)).map (fun i => sampleAt start step u sl (n + i)),
              (List.range (iterCount start stop step - n)).map (fun i => targetAt origin start step (n + i)),
              ((List.range (iterCount start stop step - n)).map
                (fun i => blockAt vru vry origin start step u sl clock (n + i))).flatten⟩ := by
  intro fuel
  induction fuel with
  | zero =>
    intro n hn
    have hge : iterCount start stop step ≤ n := by omega
    have hguard : ¬ simTimeAt start step n < stop := by
      rw [simTimeAt_lt_iff start stop step hstep]; omega
    simp [loopGo, hguard, Nat.sub_eq_zero_of_le hge]
  | succ fuel ih =>
    intro n hn
    by_cases hlt : n < iterCount start stop step
    · have hguard : simTimeAt start step n < stop := (simTimeAt_lt_iff start stop step hstep n).mpr hlt
      obtain ⟨h1, h2, h3⟩ := hok n hlt
      obtain ⟨yv, hy⟩ := Option.isSome_iff_exists.mp h3
      have hrec := ih (n + 1) (by omega)
      have hsub : iterCount start stop step - n = (iterCount start stop step - (n + 1)) + 1 := by omega
      simp only [loopGo, hguard, if_true, h1, h2, hy, simTimeAt_succ, hrec, hsub,
        List.range_succ_eq_map, List.map_cons, List.map_map, List.flatten_cons, Function.comp,
        Option.some.injEq, LoopResult.mk.injEq, true_and]
      refine ⟨?_, ?_, ?_⟩ <;>
        simp [sampleAt, targetAt, blockAt, sleepEvtsAt, hy, Function.comp_def,
          Nat.succ_eq_add_one, Nat.add_assoc, Nat.add_comm, Nat.add_left_comm,
          List.append_assoc]
    · have hge : iterCount start stop step ≤ n := by omega
      have hguard : ¬ simTimeAt start step n < stop := by
        rw [simTimeAt_lt_iff start stop step hstep]; omega
      simp [loopGo, hguard, Nat.sub_eq_zero_of_le hge]

/-- Fuel adequacy: with fuel at least the remaining iteration count the
loop always reaches an exit (normal or error), whatever the slave and the
clock do.  Hence `some` results exist for every actual execution. -/
theorem loopGo_isSome (stop step : ℚ) (u : ℚ → ℚ) (sl : SlaveOracle) (clock : ℕ → ℚ)
    (origin : ℚ) (vru vry : ℕ) (start : ℚ) (hstep : 0 < step) :
    ∀ fuel n, iterCount start stop step ≤ n + fuel →
      (loopGo stop step u sl clock origin vru vry fuel (simTimeAt start step n) n).isSome := by
  intro fuel
  induction fuel with
  | zero =>
    intro n hn
    have hguard : ¬ simTimeAt start step n < stop := by
      rw [simTimeAt_lt_iff start stop step hstep]; omega
    simp [loopGo, hguard]
  | succ fuel ih =>
    intro n hn
    by_cases hlt : n < iterCount start stop step
    · have hguard : simTimeAt start step n < stop := (simTimeAt_lt_iff start stop step hstep n).mpr hlt
      cases hset : sl.setRealOk n
      · simp [loopGo, hguard, hset]
      · cases hds : sl.doStepOk n
        · simp [loopGo, hguard, hset, hds]
        · cases hget : sl.getRealVal n with
          | none => simp [loopGo, hguard, hset, hds, hget]
          | some yv =>
            obtain ⟨r, hr⟩ := Option.isSome_iff_exists.mp (ih (n + 1) (by omega))
            simp [loopGo, hguard, hset, hds, hget, simTimeAt_succ, hr]
    · have hguard : ¬ simTimeAt start step n < stop := by
        rw [simTimeAt_lt_iff start stop step hstep]; omega
      simp [loopGo, hguard]

/-- Characterization of the loop when the first failing slave call is in
iteration `k` (with `k` inside the schedule): the loop performs exactly
the successful iterations `0 … k-1`, then the pacing and the calls of
iteration `k` up to and including the failing one, and stops with the
corresponding error.  Nothing with index beyond `k` is attempted, and the
error value carries only the failure kind and index. -/
theorem loopGo_fail_spec (stop step : ℚ) (u : ℚ → ℚ) (sl : SlaveOracle) (clock : ℕ → ℚ)
    (origin : ℚ) (vru vry : ℕ) (start : ℚ) (hstep : 0 < step) (k : ℕ)
    (hk : simTimeAt start step k < stop)
    (hokk : ∀ m, m < k → okAt sl m) (hfail : ¬ okAt sl k) :
    ∀ fuel n, n ≤ k → k < n + fuel →
      loopGo stop step u sl clock origin vru vry fuel (simTimeAt start step n) n =
        some ⟨Except.error (failErrAt sl k),
              (List.range (k - n)).map (fun i => sampleAt start step u sl (n + i)),
              (List.range (k - n + 1)).map (fun i => targetAt origin start step (n + i)),
              ((List.range (k - n)).map
                (fun i => blockAt vru vry origin start step u sl clock (n + i))).flatten ++
                (sleepEvtsAt origin start step clock k ++ failEvtsAt vru vry start step u sl k)⟩ := by
  intro fuel
  induction fuel with
  | zero => intro n h1 h2; omega
  | succ fuel ih =>
    intro n hnk hfuel
    rcases Nat.lt_or_ge n k with hlt | hge
    · have hguard : simTimeAt start step n < stop :=
        lt_of_le_of_lt (simTimeAt_mono start step hstep (le_of_lt hlt)) hk
      obtain ⟨h1, h2, h3⟩ := hokk n hlt
      obtain ⟨yv, hy⟩ := Option.isSome_iff_exists.mp h3
      have hrec := ih (n + 1) (by omega) (by omega)
      have hsub : k - n = (k - (n + 1)) + 1 := by omega
      have hsub2 : k - n + 1 = (k - (n + 1) + 1) + 1 := by omega
      simp only [loopGo, hguard, if_true, h1, h2, hy, simTimeAt_succ, hrec, hsub, hsub2,
        List.range_succ_eq_map, List.map_cons, List.map_map, List.flatten_cons,
        Option.some.injEq, LoopResult.mk.injEq, true_and]
      refine ⟨?_, ?_, ?_⟩ <;>
        simp [sampleAt, targetAt, blockAt, sleepEvtsAt, hy, Function.comp_def,
          Nat.succ_eq_add_one, Nat.add_assoc, Nat.add_comm, Nat.add_left_comm,
          List.append_assoc]
    · have hn : n = k := le_antisymm hnk hge
      subst hn
      have hr1 : List.range 1 = [0] := rfl
      cases hset : sl.setRealOk n
      · simp [loopGo, hk, hset, failErrAt, failEvtsAt, sleepEvtsAt, targetAt, Nat.sub_self, hr1]
      · cases hds : sl.doStepOk n
        · simp [loopGo, hk, hset, hds, failErrAt, failEvtsAt, sleepEvtsAt, targetAt, Nat.sub_self, hr1]
        · cases hget : sl.getRealVal n with
          | some yv => exact absurd ⟨hset, hds, by simp [hget]⟩ hfail
          | none =>
            simp [loopGo, hk, hset, hds, hget, failErrAt, failEvtsAt, sleepEvtsAt,
              targetAt, Nat.sub_self, hr1]

/-- The loop's outcome and recorded results never consult the wall clock:
executions under two arbitrary clocks (and two origins) agree on both.
Only the sleep events of the trace and the deadline ghost values can
differ. -/
theorem loopGo_pacing_irrel (stop step : ℚ) (u : ℚ → ℚ) (sl : SlaveOracle)
    (c1 c2 : ℕ → ℚ) (o1 o2 : ℚ) (vru vry : ℕ) :
    ∀ fuel (t : ℚ) (n : ℕ),
      (loopGo stop step u sl c1 o1 vru vry fuel t n).map (fun r => (r.outcome, r.results)) =
      (loopGo stop step u sl c2 o2 vru vry fuel t n).map (fun r => (r.outcome, r.results)) := by
  intro fuel
  induction fuel with
  | zero => intro t n; by_cases h : t < stop <;> simp [loopGo, h]
  | succ fuel ih =>
    intro t n
    by_cases h : t < stop
    · cases hset : sl.setRealOk n
      · simp [loopGo, h, hset]
      · cases hds : sl.doStepOk n
        · simp [loopGo, h, hset, hds]
        · cases hget : sl.getRealVal n with
          | none => simp [loopGo, h, hset, hds, hget]
          | some yv =>
            have hrec := ih (t + step) (n + 1)
            cases h1 : loopGo stop step u sl c1 o1 vru vry fuel (t + step) (n + 1) with
            | none =>
              cases h2 : loopGo stop step u sl c2 o2 vru vry fuel (t + step) (n + 1) with
              | none => simp [loopGo, h, hset, hds, hget, h1, h2]
              | some r2 => rw [h1, h2] at hrec; simp at hrec
            | some r1 =>
              cases h2 : loopGo stop step u sl c2 o2 vru vry fuel (t + step) (n + 1) with
              | none => rw [h1, h2] at hrec; simp at hrec
              | some r2 =>
                rw [h1, h2] at hrec
                simp only [Option.map_some', Option.some.injEq, Prod.mk.injEq] at hrec
                simp [loopGo, h, hset, hds, hget, h1, h2, hrec.1, hrec.2]
    · simp [loopGo, h]

/-- The deadline ghost values do not consult the per-iteration clock
readings either: executions under two clocks with the same origin agree
on outcome, results and deadlines. -/
theorem loopGo_targets_irrel (stop step : ℚ) (u : ℚ → ℚ) (sl : SlaveOracle)
    (c1 c2 : ℕ → ℚ) (o : ℚ) (vru vry : ℕ) :
    ∀ fuel (t : ℚ) (n : ℕ),
      (loopGo stop step u sl c1 o vru vry fuel t n).map (fun r => (r.outcome, r.results, r.targets)) =
      (loopGo stop step u sl c2 o vru vry fuel t n).map (fun r => (r.outcome, r.results, r.targets)) := by
  intro fuel
  induction fuel with
  | zero => intro t n; by_cases h : t < stop <;> simp [loopGo, h]
  | succ fuel ih =>
    intro t n
    by_cases h : t < stop
    · cases hset : sl.setRealOk n
      · simp [loopGo, h, hset]
      · cases hds : sl.doStepOk n
        · simp [loopGo, h, hset, hds]
        · cases hget : sl.getRealVal n with
          | none => simp [loopGo, h, hset, hds, hget]
          | some yv =>
            have hrec := ih (t + step) (n + 1)
            cases h1 : loopGo stop step u sl c1 o vru vry fuel (t + step) (n + 1) with
            | none =>
              cases h2 : loopGo stop step u sl c2 o vru vry fuel (t + step) (n + 1) with
              | none => simp [loopGo, h, hset, hds, hget, h1, h2]
              | some r2 => rw [h1, h2] at hrec; simp at hrec
            | some r1 =>
              cases h2 : loopGo stop step u sl c2 o vru vry fuel (t + step) (n + 1) with
              | none => rw [h1, h2] at hrec; simp at hrec
              | some r2 =>
                rw [h1, h2] at hrec
                simp only [Option.map_some', Option.some.injEq, Prod.mk.injEq] at hrec
                simp [loopGo, h, hset, hds, hget, h1, h2, hrec.1, hrec.2.1, hrec.2.2]
    · simp [loopGo, h]

/-- Shape of any terminating execution of the loop, whatever the slave
does: the recorded samples are exactly the grid samples for the executed
iterations (no gaps, no duplicates, in order), and the recorded deadlines
are exactly the anchored deadline values. -/
theorem loopGo_shape (stop step : ℚ) (u : ℚ → ℚ) (sl : SlaveOracle) (clock : ℕ → ℚ)
    (origin : ℚ) (vru vry : ℕ) (start : ℚ) :
    ∀ fuel n r, loopGo stop step u sl clock origin vru vry fuel (simTimeAt start step n) n = some r →
      r.results = (List.range r.results.length).map (fun i => sampleAt start step u sl (n + i)) ∧
      r.targets = (List.range r.targets.length).map (fun i => targetAt origin start step (n + i)) := by
  intro fuel
  induction fuel with
  | zero =>
    intro n r hr
    by_cases h : simTimeAt start step n < stop <;> simp [loopGo, h] at hr
    cases hr; simp
  | succ fuel ih =>
    intro n r hr
    by_cases h : simTimeAt start step n < stop
    · have hr1 : List.range 1 = [0] := rfl
      cases hset : sl.setRealOk n
      · simp [loopGo, h, hset] at hr
        cases hr; simp [hr1, targetAt]
      · cases hds : sl.doStepOk n
        · simp [loopGo, h, hset, hds] at hr
          cases hr; simp [hr1, targetAt]
        · cases hget : sl.getRealVal n with
          | none =>
            simp [loopGo, h, hset, hds, hget] at hr
            cases hr; simp [hr1, targetAt]
          | some yv =>
            rw [show (loopGo stop step u sl clock origin vru vry (fuel + 1)
                  (simTimeAt start step n) n) =
                (if simTimeAt start step n < stop then
                  if sl.setRealOk n then
                    if sl.doStepOk n then
                      match sl.getRealVal n with
                      | some y =>
                        match loopGo stop step u sl clock origin vru vry fuel
                            (simTimeAt start step n + step) (n + 1) with
                        | none => none
                        | some r =>
                          some ⟨r.outcome,
                                ⟨simTimeAt start step n, u (simTimeAt start step n), y⟩ :: r.results,
                                (origin + simTimeAt start step n) :: r.targets,
                                pacerEvts origin (simTimeAt start step n) (clock (n + 1)) ++
                                  Event.setReal vru (u (simTimeAt start step n)) ::
                                  Event.doStep (simTimeAt start step n) step ::
                                  Event.getReal vry ::
                                  Event.record ⟨simTimeAt start step n, u (simTimeAt start step n), y⟩ ::
                                  r.trace⟩
                      | none =>
                        some ⟨Except.error (SimError.getRealFailed n), [],
                              [origin + simTimeAt start step n],
                              pacerEvts origin (simTimeAt start step n) (clock (n + 1)) ++
                                [Event.setReal vru (u (simTimeAt start step n)),
                                 Event.doStep (simTimeAt start step n) step, Event.getReal vry]⟩
                    else
                      some ⟨Except.error (SimError.doStepFailed n), [],
                            [origin + simTimeAt start step n],
                            pacerEvts origin (simTimeAt start step n) (clock (n + 1)) ++
                              [Event.setReal vru (u (simTimeAt start step n)),
                               Event.doStep (simTimeAt start step n) step]⟩
                  else
                    some ⟨Except.error (SimError.setRealFailed n), [],
                          [origin + simTimeAt start step n],
                          pacerEvts origin (simTimeAt start step n) (clock (n + 1)) ++
                            [Event.setReal vru (u (simTimeAt start step n))]⟩
                else some ⟨Except.ok (), [], [], []⟩) from rfl] at hr
            rw [if_pos h, hset, hds] at hr
            simp only [hget] at hr
            cases hrec : loopGo stop step u sl clock origin vru vry fuel
                (simTimeAt start step n + step) (n + 1) with
            | none => rw [hrec] at hr; cases hr
            | some r2 =>
              rw [hrec] at hr
              rw [simTimeAt_succ] at hrec
              obtain ⟨hres, htar⟩ := ih (n + 1) r2 hrec
              cases hr
              constructor
              · simp only [List.length_cons, List.range_succ_eq_map, List.map_cons, List.map_map]
                rw [hres]
                simp [sampleAt, hget, Function.comp_def, Nat.succ_eq_add_one,
                  Nat.add_assoc, Nat.add_comm, Nat.add_left_comm]
              · simp only [List.length_cons, List.range_succ_eq_map, List.map_cons, List.map_map]
                rw [htar]
                simp [targetAt, Function.comp_def, Nat.succ_eq_add_one,
                  Nat.add_assoc, Nat.add_comm, Nat.add_left_comm]
    · simp [loopGo, h] at hr
      cases hr; simp

/-- The loop body never emits a `terminate` or `freeInstance` action:
those appear only after the loop, at lines 79-80 of the script. -/
theorem loopGo_no_teardown (stop step : ℚ) (u : ℚ → ℚ) (sl : SlaveOracle) (clock : ℕ → ℚ)
    (origin : ℚ) (vru vry : ℕ) :
    ∀ fuel (t : ℚ) (n : ℕ) r, loopGo stop step u sl clock origin vru vry fuel t n = some r →
      Event.terminate ∉ r.trace ∧ Event.freeInstance ∉ r.trace := by
  intro fuel
  induction fuel with
  | zero =>
    intro t n r hr
    by_cases h : t < stop <;> simp [loopGo, h] at hr
    cases hr; simp
  | succ fuel ih =>
    intro t n r hr
    by_cases h : t < stop
    · cases hset : sl.setRealOk n
      · simp [loopGo, h, hset] at hr
        cases hr
        by_cases hp : 0 < origin + t - clock (n + 1) <;> simp [pacerEvts, hp]
      · cases hds : sl.doStepOk n
        · simp [loopGo, h, hset, hds] at hr
          cases hr
          by_cases hp : 0 < origin + t - clock (n + 1) <;> simp [pacerEvts, hp]
        · cases hget : sl.getRealVal n with
          | none =>
            simp [loopGo, h, hset, hds, hget] at hr
            cases hr
            by_cases hp : 0 < origin + t - clock (n + 1) <;> simp [pacerEvts, hp]
          | some yv =>
            cases hrec : loopGo stop step u sl clock origin vru vry fuel (t + step) (n + 1) with
            | none => simp [loopGo, h, hset, hds, hget, hrec] at hr
            | some r2 =>
              obtain ⟨ht, hf⟩ := ih (t + step) (n + 1) r2 hrec
              simp [loopGo, h, hset, hds, hget, hrec] at hr
              cases hr
              by_cases hp : 0 < origin + t - clock (n + 1) <;>
                simp [pacerEvts, hp, ht, hf]
    · simp [loopGo, h] at hr
      cases hr; simp

/-- Every sleep the loop performs has a strictly positive duration: the
script sleeps only under `if sleep_duration > 0`. -/
theorem loopGo_sleep_pos (stop step : ℚ) (u : ℚ → ℚ) (sl : SlaveOracle) (clock : ℕ → ℚ)
    (origin : ℚ) (vru vry : ℕ) :
    ∀ fuel (t : ℚ) (n : ℕ) r, loopGo stop step u sl clock origin vru vry fuel t n = some r →
      ∀ d, Event.sleep d ∈ r.trace → 0 < d := by
  intro fuel
  induction fuel with
  | zero =>
    intro t n r hr
    by_cases h : t < stop <;> simp [loopGo, h] at hr
    cases hr; simp
  | succ fuel ih =>
    intro t n r hr
    by_cases h : t < stop
    · cases hset : sl.setRealOk n
      · simp [loopGo, h, hset] at hr
        cases hr
        intro d hd
        by_cases hp : 0 < origin + t - clock (n + 1) <;>
          simp [pacerEvts, hp] at hd
        exact hd ▸ hp
      · cases hds : sl.doStepOk n
        · simp [loopGo, h, hset, hds] at hr
          cases hr
          intro d hd
          by_cases hp : 0 < origin + t - clock (n + 1) <;>
            simp [pacerEvts, hp] at hd
          exact hd ▸ hp
        · cases hget : sl.getRealVal n with
          | none =>
            simp [loopGo, h, hset, hds, hget] at hr
            cases hr
            intro d hd
            by_cases hp : 0 < origin + t - clock (n + 1) <;>
              simp [pacerEvts, hp] at hd
            exact hd ▸ hp
          | some yv =>
            cases hrec : loopGo stop step u sl clock origin vru vry fuel (t + step) (n + 1) with
            | none => simp [loopGo, h, hset, hds, hget, hrec] at hr
            | some r2 =>
              have hih := ih (t + step) (n + 1) r2 hrec
              simp [loopGo, h, hset, hds, hget, hrec] at hr
              cases hr
              intro d hd
              by_cases hp : 0 < origin + t - clock (n + 1) <;>
                simp [pacerEvts, hp] at hd
              · rcases hd with hd | hd
                · exact hd ▸ hp
                · exact hih d hd
              · exact hih d hd
    · simp [loopGo, h] at hr
      cases hr; simp

/-- Unfolding of a run whose signal resolution fails. -/
theorem runWithWallClock_resolve_err (vars : List (String × ℕ)) (start stop step : ℚ)
    (u : ℚ → ℚ) (sl : SlaveOracle) (clock : ℕ → ℚ) (fuel : ℕ) (e : ProgError)
    (hres : resolveSignals vars = Except.error e) :
    runWithWallClock vars start stop step u sl clock fuel =
      some ⟨Except.error e, [], [], []⟩ := by
  simp [runWithWallClock, hres]

/-- Unfolding of a run whose loop completed normally. -/
theorem runWithWallClock_loop_ok (vars : List (String × ℕ)) (start stop step : ℚ)
    (u : ℚ → ℚ) (sl : SlaveOracle) (clock : ℕ → ℚ) (fuel : ℕ) (a b : ℕ) (lr : LoopResult)
    (hres : resolveSignals vars = Except.ok (a, b))
    (hl : loopGo stop step u sl clock (clock 0) a b fuel start 0 = some lr)
    (hout : lr.outcome = Except.ok ()) :
    runWithWallClock vars start stop step u sl clock fuel =
      some ⟨Except.ok (), lr.results, lr.targets,
            setupEvents start stop ++ lr.trace ++ [Event.terminate, Event.freeInstance]⟩ := by
  simp [runWithWallClock, hres, hl, hout]

/-- Unfolding of a run whose loop raised. -/
theorem runWithWallClock_loop_err (vars : List (String × ℕ)) (start stop step : ℚ)
    (u : ℚ → ℚ) (sl : SlaveOracle) (clock : ℕ → ℚ) (fuel : ℕ) (a b : ℕ) (lr : LoopResult)
    (e : SimError)
    (hres : resolveSignals vars = Except.ok (a, b))
    (hl : loopGo stop step u sl clock (clock 0) a b fuel start 0 = some lr)
    (hout : lr.outcome = Except.error e) :
    runWithWallClock vars start stop step u sl clock fuel =
      some ⟨Except.error (ProgError.sim e), lr.results, lr.targets,
            setupEvents start stop ++ lr.trace⟩ := by
  simp [runWithWallClock, hres, hl, hout]

/-- Inversion: every `some` result of `runWithWallClock` arises in one of
the three ways above. -/
theorem runWithWallClock_inversion (vars : List (String × ℕ)) (start stop step : ℚ)
    (u : ℚ → ℚ) (sl : SlaveOracle) (clock : ℕ → ℚ) (fuel : ℕ) (r : RunResult)
    (hr : runWithWallClock vars start stop step u sl clock fuel = some r) :
    (∃ e, resolveSignals vars = Except.error e ∧ r = ⟨Except.error e, [], [], []⟩) ∨
    (∃ a b lr, resolveSignals vars = Except.ok (a, b) ∧
      loopGo stop step u sl clock (clock 0) a b fuel start 0 = some lr ∧
      ((lr.outcome = Except.ok () ∧
        r = ⟨Except.ok (), lr.results, lr.targets,
             setupEvents start stop ++ lr.trace ++ [Event.terminate, Event.freeInstance]⟩) ∨
       (∃ e, lr.outcome = Except.error e ∧
        r = ⟨Except.error (ProgError.sim e), lr.results, lr.targets,
             setupEvents start stop ++ lr.trace⟩))) := by
  cases hres : resolveSignals vars with
  | error e =>
    rw [runWithWallClock_resolve_err vars start stop step u sl clock fuel e hres] at hr
    simp only [Option.some.injEq] at hr
    exact Or.inl ⟨e, rfl, hr.symm⟩
  | ok ab =>
    obtain ⟨a, b⟩ := ab
    cases hl : loopGo stop step u sl clock (clock 0) a b fuel start 0 with
    | none =>
      have hnone : runWithWallClock vars start stop step u sl clock fuel = none := by
        simp [runWithWallClock, hres, hl]
      rw [hnone] at hr; cases hr
    | some lr =>
      refine Or.inr ⟨a, b, lr, rfl, hl, ?_⟩
      cases hout : lr.outcome with
      | ok uu =>
        cases uu
        rw [runWithWallClock_loop_ok vars start stop step u sl clock fuel a b lr hres hl hout] at hr
        simp only [Option.some.injEq] at hr
        exact Or.inl ⟨rfl, hr.symm⟩
      | error e =>
        rw [runWithWallClock_loop_err vars start stop step u sl clock fuel a b lr e hres hl hout] at hr
        simp only [Option.some.injEq] at hr
        exact Or.inr ⟨e, rfl, hr.symm⟩

/-- C2: for every schedule with positive step size (stop times are finite
rationals by type) on which the slave accepts every scheduled call, the
recorded trajectory's sample times are exactly `start_time + n*step_size`
for consecutive `n = 0 … N`, with no gaps and no duplicates, and the
recorded simulated times are strictly increasing. -/
theorem trajectory_times_exact_grid (vars : List (String × ℕ)) (start stop step : ℚ)
    (u : ℚ → ℚ) (sl : SlaveOracle) (clock : ℕ → ℚ) (fuel : ℕ) (a b : ℕ)
    (hstep : 0 < step) (hres : resolveSignals vars = Except.ok (a, b))
    (hok : ∀ m, m < iterCount start stop step → okAt sl m)
    (hfuel : iterCount start stop step ≤ fuel) :
    ∃ r, runWithWallClock vars start stop step u sl clock fuel = some r ∧
      r.results.map Sample.time =
        (List.range (iterCount start stop step)).map (simTimeAt start step) ∧
      List.Pairwise (· < ·) (r.results.map Sample.time) := by
  have hl := loopGo_ok_spec stop step u sl clock (clock 0) a b start hstep hok fuel 0 (by omega)
  rw [simTimeAt_zero] at hl
  have hmap : ((List.range (iterCount start stop step - 0)).map
      (fun i => sampleAt start step u sl (0 + i))).map Sample.time =
      (List.range (iterCount start stop step)).map (simTimeAt start step) := by
    simp [sampleAt, List.map_map, Function.comp_def]
  refine ⟨_, runWithWallClock_loop_ok vars start stop step u sl clock fuel a b _ hres hl rfl,
    hmap, ?_⟩
  rw [hmap, List.pairwise_map]
  exact (List.pairwise_lt_range _).imp fun h => simTimeAt_strictMono start step hstep h

/-- C8: with a positive step size the loop terminates after exactly
`iterCount` iterations (a finite number), the guard `t_n < stop_time`
holds exactly for the indices below that count, and when no slave call
fails the trajectory has exactly one sample per executed step. -/
theorem loop_terminates_at_stop_time (vars : List (String × ℕ)) (start stop step : ℚ)
    (u : ℚ → ℚ) (sl : SlaveOracle) (clock : ℕ → ℚ) (fuel : ℕ) (a b : ℕ)
    (hstep : 0 < step) (hres : resolveSignals vars = Except.ok (a, b))
    (hfuel : iterCount start stop step ≤ fuel) :
    ∃ r, runWithWallClock vars start stop step u sl clock fuel = some r ∧
      (∀ n, simTimeAt start step n < stop ↔ n < iterCount start stop step) ∧
      ((∀ m, m < iterCount start stop step → okAt sl m) →
        r.results.length = iterCount start stop step) := by
  have hsome := loopGo_isSome stop step u sl clock (clock 0) a b start hstep fuel 0 (by omega)
  rw [simTimeAt_zero] at hsome
  obtain ⟨lr, hl⟩ := Option.isSome_iff_exists.mp hsome
  cases hout : lr.outcome with
  | ok uu =>
    cases uu
    refine ⟨_, runWithWallClock_loop_ok vars start stop step u sl clock fuel a b lr hres hl hout,
      fun n => simTimeAt_lt_iff start stop step hstep n, ?_⟩
    intro hok
    have hspec := loopGo_ok_spec stop step u sl clock (clock 0) a b start hstep hok fuel 0 (by omega)
    rw [simTimeAt_zero, hl] at hspec
    have hlr := Option.some.inj hspec
    subst hlr
    simp
  | error e =>
    refine ⟨_, runWithWallClock_loop_err vars start stop step u sl clock fuel a b lr e hres hl hout,
      fun n => simTimeAt_lt_iff start stop step hstep n, ?_⟩
    intro hok
    have hspec := loopGo_ok_spec stop step u sl clock (clock 0) a b start hstep hok fuel 0 (by omega)
    rw [simTimeAt_zero, hl] at hspec
    have hlr := Option.some.inj hspec
    subst hlr
    simp at hout

/-- C4: on a run in which no slave call fails, the full event trace is:
the setup calls, then for each step `n` in order the block consisting of
the (optional) pacer sleep, the input write `setReal(vr_u, u(t_n))`, the
advance `doStep(t_n, step_size)`, the output read `getReal(vr_y)` and the
append of the sample `(t_n, u(t_n), y_n)`, and finally the teardown.
The last conjunct spells out the exact per-iteration order. -/
theorem iteration_action_order (vars : List (String × ℕ)) (start stop step : ℚ)
    (u : ℚ → ℚ) (sl : SlaveOracle) (clock : ℕ → ℚ) (fuel : ℕ) (a b : ℕ)
    (hstep : 0 < step) (hres : resolveSignals vars = Except.ok (a, b))
    (hok : ∀ m, m < iterCount start stop step → okAt sl m)
    (hfuel : iterCount start stop step ≤ fuel) :
    ∃ r, runWithWallClock vars start stop step u sl clock fuel = some r ∧
      r.trace = setupEvents start stop ++
        ((List.range (iterCount start stop step)).map
          (fun n => blockAt a b (clock 0) start step u sl clock n)).flatten ++
        [Event.terminate, Event.freeInstance] ∧
      ∀ n, blockAt a b (clock 0) start step u sl clock n =
        sleepEvtsAt (clock 0) start step clock n ++
          [Event.setReal a (u (simTimeAt start step n)),
           Event.doStep (simTimeAt start step n) step,
           Event.getReal b,
           Event.record (sampleAt start step u sl n)] := by
  have hl := loopGo_ok_spec stop step u sl clock (clock 0) a b start hstep hok fuel 0 (by omega)
  rw [simTimeAt_zero] at hl
  refine ⟨_, runWithWallClock_loop_ok vars start stop step u sl clock fuel a b _ hres hl rfl,
    ?_, fun n => rfl⟩
  simp

/-- C9: the recorded trajectory is independent of wall-clock behavior.
Two executions with the same schedule, input function, signal table and
slave responses, but arbitrary different wall clocks (hence arbitrary
different sleeps and overruns), record identical trajectories — every
sample's time, input value and output value — and end with the same
outcome.  Pacing affects only the sleep events, never what is recorded. -/
theorem trajectory_independent_of_wall_clock (vars : List (String × ℕ))
    (start stop step : ℚ) (u : ℚ → ℚ) (sl : SlaveOracle) (fuel : ℕ)
    (c1 c2 : ℕ → ℚ) (r1 r2 : RunResult)
    (h1 : runWithWallClock vars start stop step u sl c1 fuel = some r1)
    (h2 : runWithWallClock vars start stop step u sl c2 fuel = some r2) :
    r1.results = r2.results ∧ r1.outcome = r2.outcome := by
  rcases runWithWallClock_inversion vars start stop step u sl c1 fuel r1 h1 with
    ⟨e1, hres1, hr1⟩ | ⟨a1, b1, lr1, hres1, hl1, hc1⟩
  · rcases runWithWallClock_inversion vars start stop step u sl c2 fuel r2 h2 with
      ⟨e2, hres2, hr2⟩ | ⟨a2, b2, lr2, hres2, hl2, hc2⟩
    · rw [hres1] at hres2
      injection hres2 with he
      subst he; subst hr1; subst hr2
      exact ⟨rfl, rfl⟩
    · rw [hres1] at hres2; simp at hres2
  · rcases runWithWallClock_inversion vars start stop step u sl c2 fuel r2 h2 with
      ⟨e2, hres2, hr2⟩ | ⟨a2, b2, lr2, hres2, hl2, hc2⟩
    · rw [hres1] at hres2; simp at hres2
    · rw [hres1] at hres2
      injection hres2 with hab
      have ha : a1 = a2 := congrArg Prod.fst hab
      have hb : b1 = b2 := congrArg Prod.snd hab
      subst ha; subst hb
      have hirr := loopGo_pacing_irrel stop step u sl c1 c2 (c1 0) (c2 0) a1 b1 fuel start 0
      rw [hl1, hl2] at hirr
      simp only [Option.map_some', Option.some.injEq, Prod.mk.injEq] at hirr
      obtain ⟨hout, hresq⟩ := hirr
      rcases hc1 with ⟨ho1, hr1⟩ | ⟨e1, ho1, hr1⟩ <;>
        rcases hc2 with ⟨ho2, hr2⟩ | ⟨e2, ho2, hr2⟩ <;> subst hr1 <;> subst hr2
      · exact ⟨hresq, rfl⟩
      · rw [ho1, ho2] at hout; simp at hout
      · rw [ho1, ho2] at hout; simp at hout
      · rw [ho1, ho2] at hout
        injection hout with he
        subst he
        exact ⟨hresq, rfl⟩

/-- C5: the pacer never sleeps a nonpositive duration.  Every sleep event
of a run has strictly positive duration; when the wall clock is already
at or past the computed deadline of an iteration, that iteration emits no
sleep event at all (and no error); and — wall clock regardless — every
scheduled step of a successful run is still executed (the run falls
behind rather than skipping steps). -/
theorem pacer_never_sleeps_nonpositive (vars : List (String × ℕ))
    (start stop step : ℚ) (u : ℚ → ℚ) (sl : SlaveOracle) (clock : ℕ → ℚ)
    (fuel : ℕ) (a b : ℕ) (r : RunResult)
    (hres : resolveSignals vars = Except.ok (a, b))
    (hr : runWithWallClock vars start stop step u sl clock fuel = some r) :
    (∀ d, Event.sleep d ∈ r.trace → 0 < d) ∧
    (∀ n, targetAt (clock 0) start step n ≤ clock (n + 1) →
      sleepEvtsAt (clock 0) start step clock n = []) ∧
    (0 < step → (∀ m, m < iterCount start stop step → okAt sl m) →
      iterCount start stop step ≤ fuel →
      ∀ n, n < iterCount start stop step →
        Event.doStep (simTimeAt start step n) step ∈ r.trace) := by
  rcases runWithWallClock_inversion vars start stop step u sl clock fuel r hr with
    ⟨e, hres2, hrr⟩ | ⟨a2, b2, lr, hres2, hl, hc⟩
  · rw [hres] at hres2; simp at hres2
  · rw [hres] at hres2
    injection hres2 with hab
    have ha : a = a2 := congrArg Prod.fst hab
    have hb : b = b2 := congrArg Prod.snd hab
    subst ha; subst hb
    have hpos := loopGo_sleep_pos stop step u sl clock (clock 0) a b fuel start 0 lr hl
    refine ⟨?_, ?_, ?_⟩
    · intro d hd
      rcases hc with ⟨ho, hrr⟩ | ⟨e, ho, hrr⟩ <;> subst hrr <;>
        simp [setupEvents] at hd <;> exact hpos d hd
    · intro n hle
      unfold sleepEvtsAt pacerEvts
      rw [if_neg]
      unfold targetAt at hle
      linarith
    · intro hstep hok hfuel n hn
      have hspec := loopGo_ok_spec stop step u sl clock (clock 0) a b start hstep hok fuel 0
        (by omega)
      rw [simTimeAt_zero, hl] at hspec
      have hlr := Option.some.inj hspec
      subst hlr
      have hblock : Event.doStep (simTimeAt start step n) step ∈
          blockAt a b (clock 0) start step u sl clock n := by
        simp [blockAt]
      have hmem : Event.doStep (simTimeAt start step n) step ∈
          ((List.range (iterCount start stop step - 0)).map
            (fun i => blockAt a b (clock 0) start step u sl clock (0 + i))).flatten := by
        rw [List.mem_flatten]
        refine ⟨blockAt a b (clock 0) start step u sl clock n, ?_, hblock⟩
        refine List.mem_map.mpr ⟨n, ?_, by simp⟩
        simp [List.mem_range]; omega
      rcases hc with ⟨ho, hrr⟩ | ⟨e, ho, hrr⟩
      · subst hrr
        simp
        exact Or.inr ⟨n, hn, hblock⟩
      · subst hrr
        simp at ho

/-- C3 (counterexample): the claim that terminate/release is invoked
exactly once on EVERY exit path is false.  Concretely, with a slave whose
very first `setReal` fails, the run exits through the error path and the
trace contains no `terminate` and no `freeInstance` at all — the script
has no try/finally around the loop, so the teardown calls at lines 79-80
are skipped and the slave is left live. -/
theorem terminate_skipped_on_error_cex :
    runWithWallClock [("u", 0), ("y", 1)] 0 1 1 (fun t => t)
        ⟨fun _ => false, fun _ => true, fun _ => some 0⟩ (fun _ => 0) 1 =
      some ⟨Except.error (ProgError.sim (SimError.setRealFailed 0)), [], [0],
            setupEvents 0 1 ++ [Event.setReal 0 0]⟩ ∧
    Event.terminate ∉ setupEvents 0 1 ++ [Event.setReal 0 0] ∧
    Event.freeInstance ∉ setupEvents 0 1 ++ [Event.setReal 0 0] := by
  refine ⟨?_, by simp [setupEvents], by simp [setupEvents]⟩
  have h : ("u" == "y") = false := rfl
  simp only [runWithWallClock, loopGo, resolveSignals, vrsLookup, List.reverse,
    List.lookup, List.reverseAux, h]
  norm_num [pacerEvts, setupEvents]

/-- C3 (amended): on normal completion of the step loop, `terminate` and
`freeInstance` are invoked exactly once each, in that order, as the last
two actions of the run; on an error raised during any iteration the run
ends without invoking either (the slave is left live).  In particular no
exit path ever invokes them twice (no double free). -/
theorem teardown_exactly_on_normal_completion (vars : List (String × ℕ))
    (start stop step : ℚ) (u : ℚ → ℚ) (sl : SlaveOracle) (clock : ℕ → ℚ)
    (fuel : ℕ) (r : RunResult)
    (hr : runWithWallClock vars start stop step u sl clock fuel = some r) :
    (r.outcome = Except.ok () →
      ∃ pre, r.trace = pre ++ [Event.terminate, Event.freeInstance] ∧
        Event.terminate ∉ pre ∧ Event.freeInstance ∉ pre) ∧
    (∀ e, r.outcome = Except.error e →
      Event.terminate ∉ r.trace ∧ Event.freeInstance ∉ r.trace) := by
  rcases runWithWallClock_inversion vars start stop step u sl clock fuel r hr with
    ⟨e, hres, hrr⟩ | ⟨a, b, lr, hres, hl, hc⟩
  · subst hrr
    exact ⟨fun h => by simp at h, fun e2 _ => by simp⟩
  · obtain ⟨ht, hf⟩ := loopGo_no_teardown stop step u sl clock (clock 0) a b fuel start 0 lr hl
    rcases hc with ⟨ho, hrr⟩ | ⟨e, ho, hrr⟩ <;> subst hrr
    · refine ⟨fun _ => ⟨setupEvents start stop ++ lr.trace, by simp, ?_, ?_⟩,
        fun e2 he => by simp at he⟩
      · simp [setupEvents, ht]
      · simp [setupEvents, hf]
    · exact ⟨fun h => by simp at h,
        fun e2 _ => ⟨by simp [setupEvents, ht], by simp [setupEvents, hf]⟩⟩

/-- C6 (counterexample): the propagated error does not carry the
trajectory accumulated so far.  Two runs whose slaves answer differently
at step 0 (outputs 5 vs 7) and then both reject `doStep` at step 1
propagate the very same error value, while their accumulated trajectories
differ — so no data in the propagated error can recover the trajectory.
In the script, `results` is a local variable that dies with the raised
exception; the exception carries only a status message. -/
theorem error_does_not_carry_trajectory_cex :
    (runWithWallClock [("u", 0), ("y", 1)] 0 2 1 (fun t => t)
        ⟨fun _ => true, fun n => n == 0, fun _ => some 5⟩ (fun _ => 0) 2).map RunResult.outcome =
      (runWithWallClock [("u", 0), ("y", 1)] 0 2 1 (fun t => t)
        ⟨fun _ => true, fun n => n == 0, fun _ => some 7⟩ (fun _ => 0) 2).map RunResult.outcome ∧
    (runWithWallClock [("u", 0), ("y", 1)] 0 2 1 (fun t => t)
        ⟨fun _ => true, fun n => n == 0, fun _ => some 5⟩ (fun _ => 0) 2).map RunResult.results =
      some [⟨0, 0, 5⟩] ∧
    (runWithWallClock [("u", 0), ("y", 1)] 0 2 1 (fun t => t)
        ⟨fun _ => true, fun n => n == 0, fun _ => some 7⟩ (fun _ => 0) 2).map RunResult.results =
      some [⟨0, 0, 7⟩] ∧
    ¬ (some [(⟨0, 0, 5⟩ : Sample)] = some [(⟨0, 0, 7⟩ : Sample)]) := by
  have h : ("u" == "y") = false := rfl
  refine ⟨?_, ?_, ?_, by simp⟩ <;>
    · simp only [runWithWallClock, loopGo, resolveSignals, vrsLookup, List.reverse,
        List.lookup, List.reverseAux, h]
      norm_num [pacerEvts, setupEvents]

/-- C6 (amended): if the first failing slave call happens in iteration
`k` of the schedule, the loop stops immediately: the run's final state
shows exactly the samples for steps `0 … k-1`, the deadline values for
iterations `0 … k`, and a trace containing the blocks of iterations
`0 … k-1` followed only by the pacing and calls of iteration `k` up to
the failing call — nothing with a later index is attempted.  The
propagated error value is only the failure kind and step index; the
accumulated trajectory is in the (discarded) loop state, not in the
error. -/
theorem failure_stops_loop_with_prefix_trajectory (vars : List (String × ℕ))
    (start stop step : ℚ) (u : ℚ → ℚ) (sl : SlaveOracle) (clock : ℕ → ℚ)
    (fuel : ℕ) (a b k : ℕ)
    (hstep : 0 < step) (hres : resolveSignals vars = Except.ok (a, b))
    (hk : simTimeAt start step k < stop)
    (hokk : ∀ m, m < k → okAt sl m) (hfail : ¬ okAt sl k) (hfuel : k < fuel) :
    runWithWallClock vars start stop step u sl clock fuel =
      some ⟨Except.error (ProgError.sim (failErrAt sl k)),
            (List.range k).map (fun i => sampleAt start step u sl i),
            (List.range (k + 1)).map (fun i => targetAt (clock 0) start step i),
            setupEvents start stop ++
              (((List.range k).map
                  (fun i => blockAt a b (clock 0) start step u sl clock i)).flatten ++
                (sleepEvtsAt (clock 0) start step clock k ++
                  failEvtsAt a b start step u sl k))⟩ := by
  have hl := loopGo_fail_spec stop step u sl clock (clock 0) a b start hstep k hk hokk hfail
    fuel 0 (by omega) (by omega)
  rw [simTimeAt_zero] at hl
  have hrun := runWithWallClock_loop_err vars start stop step u sl clock fuel a b _
    (failErrAt sl k) hres hl rfl
  simpa using hrun

/-- C7: signal resolution happens before any slave action.  If a
requested name is missing from the variable table, the run fails with the
corresponding `UnknownSignal` error and an empty trace: no instantiation,
no setup call, no step — resolution itself has no side effects on the
slave.  If both names resolve, resolution returns exactly the
name-to-value-reference mapping given by the table. -/
theorem resolve_fails_before_any_slave_action (vars : List (String × ℕ))
    (start stop step : ℚ) (u : ℚ → ℚ) (sl : SlaveOracle) (clock : ℕ → ℚ) (fuel : ℕ) :
    (∀ e, resolveSignals vars = Except.error e →
      (runWithWallClock vars start stop step u sl clock fuel =
        some ⟨Except.error e, [], [], []⟩ ∧
       ∃ nm, e = ProgError.unknownSignal nm ∧ vrsLookup vars nm = none)) ∧
    (∀ a b, resolveSignals vars = Except.ok (a, b) →
      vrsLookup vars "u" = some a ∧ vrsLookup vars "y" = some b) := by
  constructor
  · intro e he
    refine ⟨runWithWallClock_resolve_err vars start stop step u sl clock fuel e he, ?_⟩
    unfold resolveSignals at he
    cases hu : vrsLookup vars "u" with
    | none =>
      rw [hu] at he
      injection he with h
      exact ⟨"u", h.symm, hu⟩
    | some a =>
      rw [hu] at he
      cases hy : vrsLookup vars "y" with
      | none =>
        rw [hy] at he
        injection he with h
        exact ⟨"y", h.symm, hy⟩
      | some b => rw [hy] at he; simp at he
  · intro a b hab
    unfold resolveSignals at hab
    cases hu : vrsLookup vars "u" with
    | none => rw [hu] at hab; simp at hab
    | some a2 =>
      rw [hu] at hab
      cases hy : vrsLookup vars "y" with
      | none => rw [hy] at hab; simp at hab
      | some b2 =>
        rw [hy] at hab
        injection hab with h
        have h1 : a2 = a := congrArg Prod.fst h
        have h2 : b2 = b := congrArg Prod.snd h
        exact ⟨by rw [h1], by rw [h2]⟩

/-- Every deadline value recorded by a run satisfies the anchoring
formula `origin + t_j`, whatever the slave and the clock do. -/
theorem runWithWallClock_targets_formula (vars : List (String × ℕ)) (start stop step : ℚ)
    (u : ℚ → ℚ) (sl : SlaveOracle) (clock : ℕ → ℚ) (fuel : ℕ) (r : RunResult)
    (hr : runWithWallClock vars start stop step u sl clock fuel = some r) :
    ∀ j d, r.targets[j]? = some d → d = targetAt (clock 0) start step j := by
  intro j d hj
  rcases runWithWallClock_inversion vars start stop step u sl clock fuel r hr with
    ⟨e, hres, hrr⟩ | ⟨a, b, lr, hres, hl, hc⟩
  · subst hrr; simp at hj
  · have hl0 : loopGo stop step u sl clock (clock 0) a b fuel (simTimeAt start step 0) 0 =
        some lr := by rw [simTimeAt_zero]; exact hl
    obtain ⟨-, htar⟩ := loopGo_shape stop step u sl clock (clock 0) a b start fuel 0 lr hl0
    have htr : r.targets = lr.targets := by
      rcases hc with ⟨ho, hrr⟩ | ⟨e, ho, hrr⟩ <;> subst hrr <;> rfl
    rw [htr, htar, List.getElem?_map] at hj
    cases hrange : (List.range lr.targets.length)[j]? with
    | none => rw [hrange] at hj; simp at hj
    | some m =>
      rw [hrange] at hj
      obtain ⟨hlt, hval⟩ := List.getElem?_eq_some.mp hrange
      rw [List.getElem_range] at hval
      subst hval
      simp only [Option.map_some', Option.some.injEq] at hj
      rw [← hj]
      simp

/-- C1: the deadline of step `n` of the schedule (the value the script
computes as `target_real_time` in iteration `n`) equals
`origin + (t_n - start_time)` where `origin` is the single wall-clock
reading taken at the moment the run starts (the script's
`real_world_start_time`, read once after initialization and before the
loop) and `t_n = start_time + n*step_size`; with the script's constants
`start_time = 0` this is `origin + n*step_size`.  The value depends only
on the origin and `n`: two runs whose clocks agree on the origin reading
but differ arbitrarily on every later reading (sleep overruns at any step
`m < n` included) record identical deadline lists. -/
theorem deadline_anchored_to_single_origin (vars : List (String × ℕ)) (u : ℚ → ℚ)
    (sl : SlaveOracle) (c1 c2 : ℕ → ℚ) (fuel j : ℕ) (r1 r2 : RunResult) (d : ℚ)
    (horigin : c1 0 = c2 0)
    (h1 : mainRun vars u sl c1 fuel = some r1)
    (h2 : mainRun vars u sl c2 fuel = some r2)
    (hj : r1.targets[j]? = some d) :
    d = c1 0 + (simTimeAt start_time step_size j - start_time) ∧
    r1.targets = r2.targets := by
  unfold mainRun at h1 h2
  constructor
  · have hform := runWithWallClock_targets_formula vars start_time stop_time step_size
      u sl c1 fuel r1 h1 j d hj
    rw [hform]
    simp [targetAt, start_time]
  · rcases runWithWallClock_inversion vars start_time stop_time step_size u sl c1 fuel r1 h1 with
      ⟨e1, hres1, hr1⟩ | ⟨a1, b1, lr1, hres1, hl1, hc1⟩
    · rcases runWithWallClock_inversion vars start_time stop_time step_size u sl c2 fuel r2 h2 with
        ⟨e2, hres2, hr2⟩ | ⟨a2, b2, lr2, hres2, hl2, hc2⟩
      · subst hr1; subst hr2; rfl
      · rw [hres1] at hres2; simp at hres2
    · rcases runWithWallClock_inversion vars start_time stop_time step_size u sl c2 fuel r2 h2 with
        ⟨e2, hres2, hr2⟩ | ⟨a2, b2, lr2, hres2, hl2, hc2⟩
      · rw [hres1] at hres2; simp at hres2
      · rw [hres1] at hres2
        injection hres2 with hab
        have ha : a1 = a2 := congrArg Prod.fst hab
        have hb : b1 = b2 := congrArg Prod.snd hab
        subst ha; subst hb
        have hirr := loopGo_targets_irrel stop_time step_size u sl c1 c2 (c1 0) a1 b1
          fuel start_time 0
        rw [hl1, horigin, hl2] at hirr
        simp only [Option.map_some', Option.some.injEq, Prod.mk.injEq] at hirr
        obtain ⟨-, -, htargets⟩ := hirr
        have htr1 : r1.targets = lr1.targets := by
          rcases hc1 with ⟨ho, hrr⟩ | ⟨e, ho, hrr⟩ <;> subst hrr <;> rfl
        have htr2 : r2.targets = lr2.targets := by
          rcases hc2 with ⟨ho, hrr⟩ | ⟨e, ho, hrr⟩ <;> subst hrr <;> rfl
        rw [htr1, htr2, htargets]

/-- C10: with the script's constants `start_time = 0 < 100 = stop_time`,
every run whose slave accepts the calls of step 0 executes at least one
step: the trajectory is non-empty, its first sample records simulated
time `start_time` and input value `u(start_time)`, the deadline of step 0
equals the origin reading itself, and — since the wall clock is monotone,
so the origin reading is not after the reading taken inside iteration 0 —
the first step begins without any sleep: the first action after setup is
the input write, immediately followed by `doStep`. -/
theorem first_step_immediate_and_nonempty (vars : List (String × ℕ)) (u : ℚ → ℚ)
    (sl : SlaveOracle) (clock : ℕ → ℚ) (fuel : ℕ) (a b : ℕ) (y0 : ℚ)
    (hres : resolveSignals vars = Except.ok (a, b))
    (h0set : sl.setRealOk 0 = true) (h0step : sl.doStepOk 0 = true)
    (h0get : sl.getRealVal 0 = some y0)
    (hclock : clock 0 ≤ clock 1)
    (hfuel : iterCount start_time stop_time step_size ≤ fuel) :
    ∃ r, mainRun vars u sl clock fuel = some r ∧
      r.results ≠ [] ∧
      r.results.head? = some ⟨start_time, u start_time, y0⟩ ∧
      r.targets.head? = some (clock 0) ∧
      ∃ tail, r.trace = setupEvents start_time stop_time ++
        Event.setReal a (u start_time) :: Event.doStep start_time step_size :: tail := by
  have hN : iterCount start_time stop_time step_size = 1000 := by
    norm_num [iterCount, start_time, stop_time, step_size]
    rfl
  rw [hN] at hfuel
  cases fuel with
  | zero => omega
  | succ f =>
    have hstep : (0:ℚ) < step_size := by norm_num [step_size]
    have hsome := loopGo_isSome stop_time step_size u sl clock (clock 0) a b start_time
      hstep f 1 (by rw [hN]; omega)
    obtain ⟨lr2, hl2⟩ := Option.isSome_iff_exists.mp hsome
    have hguard : start_time < stop_time := by norm_num [start_time, stop_time]
    have hshift : start_time + step_size = simTimeAt start_time step_size 1 := by
      simp [simTimeAt]
    have hl1 : loopGo stop_time step_size u sl clock (clock 0) a b (f + 1) start_time 0 =
        some ⟨lr2.outcome,
              ⟨start_time, u start_time, y0⟩ :: lr2.results,
              (clock 0 + start_time) :: lr2.targets,
              pacerEvts (clock 0) start_time (clock 1) ++
                Event.setReal a (u start_time) :: Event.doStep start_time step_size ::
                Event.getReal b :: Event.record ⟨start_time, u start_time, y0⟩ ::
                lr2.trace⟩ := by
      simp only [loopGo, hguard, if_true, h0set, h0step, h0get, hshift, hl2, Nat.zero_add]
    have hcond : ¬ (0 < clock 0 + start_time - clock 1) := by
      simp only [start_time, add_zero]
      rw [not_lt]
      linarith
    have hpacer : pacerEvts (clock 0) start_time (clock 1) = [] := by
      unfold pacerEvts
      rw [if_neg hcond]
    unfold mainRun
    cases hout : lr2.outcome with
    | ok uu =>
      cases uu
      refine ⟨_, runWithWallClock_loop_ok vars start_time stop_time step_size u sl clock
        (f + 1) a b _ hres hl1 hout, ?_, ?_, ?_, ?_⟩
      · simp
      · simp
      · simp [start_time]
      · exact ⟨Event.getReal b :: Event.record ⟨start_time, u start_time, y0⟩ ::
          (lr2.trace ++ [Event.terminate, Event.freeInstance]), by simp [hpacer]⟩
    | error e =>
      refine ⟨_, runWithWallClock_loop_err vars start_time stop_time step_size u sl clock
        (f + 1) a b _ e hres hl1 hout, ?_, ?_, ?_, ?_⟩
      · simp
      · simp
      · simp [start_time]
      · exact ⟨Event.getReal b :: Event.record ⟨start_time, u start_time, y0⟩ :: lr2.trace,
          by simp [hpacer]⟩

/-! Concrete fixtures used to instantiate the theorems above. -/

/-- A variable table exposing `u` at value reference 0 and `y` at 1. -/
def wVars : List (String × ℕ) := [("u", 0), ("y", 1)]

/-- A slave that accepts every call and answers `getReal` with the step index. -/
def wSlOk : SlaveOracle := ⟨fun _ => true, fun _ => true, fun n => some n⟩

/-- A slave whose very first `setReal` fails. -/
def wSlFail0 : SlaveOracle := ⟨fun _ => false, fun _ => true, fun _ => some 0⟩

/-- A slave that accepts step 0 (output 5) and rejects `doStep` at step 1. -/
def wSlStep1 : SlaveOracle := ⟨fun _ => true, fun n => n == 0, fun _ => some 5⟩

/-- A wall clock frozen at 0. -/
def wClock0 : ℕ → ℚ := fun _ => 0

/-- A wall clock that jumps to 5 after the origin reading (a large overrun). -/
def wClockJitter : ℕ → ℚ := fun i => if i = 0 then 0 else 5

/-- A wall clock running three seconds per reading (always past deadline). -/
def wClockFast : ℕ → ℚ := fun i => 3 * (i : ℚ)

/-- Witness for `trajectory_times_exact_grid` at the one-step schedule
`{start 0, stop 1, step 1}` with an always-accepting slave. -/
theorem trajectory_times_exact_grid_witness :
    (0:ℚ) < 1 ∧ resolveSignals wVars = Except.ok (0, 1) ∧ iterCount 0 1 1 ≤ 1 ∧
    ∃ r, runWithWallClock wVars 0 1 1 (fun t => t) wSlOk wClock0 1 = some r ∧
      r.results.map Sample.time = (List.range (iterCount 0 1 1)).map (simTimeAt 0 1) ∧
      List.Pairwise (· < ·) (r.results.map Sample.time) := by
  have h1 : (0:ℚ) < 1 := by norm_num
  have h2 : resolveSignals wVars = Except.ok (0, 1) := rfl
  have h3 : iterCount 0 1 1 ≤ 1 := by
    norm_num [iterCount]
  exact ⟨h1, h2, h3,
    trajectory_times_exact_grid wVars 0 1 1 (fun t => t) wSlOk wClock0 1 0 1 h1 h2
      (fun m _ => ⟨rfl, rfl, rfl⟩) h3⟩

/-- Witness for `loop_terminates_at_stop_time` at the same schedule. -/
theorem loop_terminates_at_stop_time_witness :
    (0:ℚ) < 1 ∧ resolveSignals wVars = Except.ok (0, 1) ∧ iterCount 0 1 1 ≤ 1 ∧
    ∃ r, runWithWallClock wVars 0 1 1 (fun t => t) wSlOk wClock0 1 = some r ∧
      (∀ n, simTimeAt 0 1 n < 1 ↔ n < iterCount 0 1 1) ∧
      ((∀ m, m < iterCount 0 1 1 → okAt wSlOk m) → r.results.length = iterCount 0 1 1) := by
  have h1 : (0:ℚ) < 1 := by norm_num
  have h2 : resolveSignals wVars = Except.ok (0, 1) := rfl
  have h3 : iterCount 0 1 1 ≤ 1 := by norm_num [iterCount]
  exact ⟨h1, h2, h3,
    loop_terminates_at_stop_time wVars 0 1 1 (fun t => t) wSlOk wClock0 1 0 1 h1 h2 h3⟩

/-- Witness for `iteration_action_order` at the same schedule. -/
theorem iteration_action_order_witness :
    (0:ℚ) < 1 ∧ resolveSignals wVars = Except.ok (0, 1) ∧ iterCount 0 1 1 ≤ 1 ∧
    ∃ r, runWithWallClock wVars 0 1 1 (fun t => t) wSlOk wClock0 1 = some r ∧
      r.trace = setupEvents 0 1 ++
        ((List.range (iterCount 0 1 1)).map
          (fun n => blockAt 0 1 (wClock0 0) 0 1 (fun t => t) wSlOk wClock0 n)).flatten ++
        [Event.terminate, Event.freeInstance] ∧
      ∀ n, blockAt 0 1 (wClock0 0) 0 1 (fun t => t) wSlOk wClock0 n =
        sleepEvtsAt (wClock0 0) 0 1 wClock0 n ++
          [Event.setReal 0 ((fun t => t) (simTimeAt 0 1 n)),
           Event.doStep (simTimeAt 0 1 n) 1,
           Event.getReal 1,
           Event.record (sampleAt 0 1 (fun t => t) wSlOk n)] := by
  have h1 : (0:ℚ) < 1 := by norm_num
  have h2 : resolveSignals wVars = Except.ok (0, 1) := rfl
  have h3 : iterCount 0 1 1 ≤ 1 := by norm_num [iterCount]
  exact ⟨h1, h2, h3,
    iteration_action_order wVars 0 1 1 (fun t => t) wSlOk wClock0 1 0 1 h1 h2
      (fun m _ => ⟨rfl, rfl, rfl⟩) h3⟩

/-- Witness for `trajectory_independent_of_wall_clock`: the same schedule
and slave under a fast clock (no sleeps) and under the frozen clock (one
sleep) record the same trajectory with different traces. -/
theorem trajectory_independent_of_wall_clock_witness :
    runWithWallClock wVars 0 2 1 (fun t => t) wSlOk wClockFast 2 =
      some ⟨Except.ok (), [⟨0, 0, 0⟩, ⟨1, 1, 1⟩], [0, 1],
            setupEvents 0 2 ++
              [Event.setReal 0 0, Event.doStep 0 1, Event.getReal 1, Event.record ⟨0, 0, 0⟩,
               Event.setReal 0 1, Event.doStep 1 1, Event.getReal 1, Event.record ⟨1, 1, 1⟩,
               Event.terminate, Event.freeInstance]⟩ ∧
    runWithWallClock wVars 0 2 1 (fun t => t) wSlOk wClock0 2 =
      some ⟨Except.ok (), [⟨0, 0, 0⟩, ⟨1, 1, 1⟩], [0, 1],
            setupEvents 0 2 ++
              [Event.setReal 0 0, Event.doStep 0 1, Event.getReal 1, Event.record ⟨0, 0, 0⟩,
               Event.sleep 1,
               Event.setReal 0 1, Event.doStep 1 1, Event.getReal 1, Event.record ⟨1, 1, 1⟩,
               Event.terminate, Event.freeInstance]⟩ ∧
    ([⟨0, 0, 0⟩, ⟨1, 1, 1⟩] : List Sample) = [⟨0, 0, 0⟩, ⟨1, 1, 1⟩] ∧
    (Except.ok () : Except ProgError Unit) = Except.ok () := by
  have h : ("u" == "y") = false := rfl
  have h1 : runWithWallClock wVars 0 2 1 (fun t => t) wSlOk wClockFast 2 =
      some ⟨Except.ok (), [⟨0, 0, 0⟩, ⟨1, 1, 1⟩], [0, 1],
            setupEvents 0 2 ++
              [Event.setReal 0 0, Event.doStep 0 1, Event.getReal 1, Event.record ⟨0, 0, 0⟩,
               Event.setReal 0 1, Event.doStep 1 1, Event.getReal 1, Event.record ⟨1, 1, 1⟩,
               Event.terminate, Event.freeInstance]⟩ := by
    simp only [runWithWallClock, loopGo, resolveSignals, vrsLookup, wVars, wSlOk, wClockFast,
      List.reverse, List.lookup, List.reverseAux, h]
    norm_num [pacerEvts, setupEvents]
  have h2 : runWithWallClock wVars 0 2 1 (fun t => t) wSlOk wClock0 2 =
      some ⟨Except.ok (), [⟨0, 0, 0⟩, ⟨1, 1, 1⟩], [0, 1],
            setupEvents 0 2 ++
              [Event.setReal 0 0, Event.doStep 0 1, Event.getReal 1, Event.record ⟨0, 0, 0⟩,
               Event.sleep 1,
               Event.setReal 0 1, Event.doStep 1 1, Event.getReal 1, Event.record ⟨1, 1, 1⟩,
               Event.terminate, Event.freeInstance]⟩ := by
    simp only [runWithWallClock, loopGo, resolveSignals, vrsLookup, wVars, wSlOk, wClock0,
      List.reverse, List.lookup, List.reverseAux, h]
    norm_num [pacerEvts, setupEvents]
  exact ⟨h1, h2,
    (trajectory_independent_of_wall_clock wVars 0 2 1 (fun t => t) wSlOk 2
      wClockFast wClock0 _ _ h1 h2).1,
    (trajectory_independent_of_wall_clock wVars 0 2 1 (fun t => t) wSlOk 2
      wClockFast wClock0 _ _ h1 h2).2⟩

/-- Witness for `pacer_never_sleeps_nonpositive` at a concrete one-step
run whose wall clock is exactly at the deadline (no sleep happens). -/
theorem pacer_never_sleeps_nonpositive_witness :
    resolveSignals wVars = Except.ok (0, 1) ∧
    runWithWallClock wVars 0 1 1 (fun t => t) wSlOk wClock0 1 =
      some ⟨Except.ok (), [⟨0, 0, 0⟩], [0],
            setupEvents 0 1 ++
              [Event.setReal 0 0, Event.doStep 0 1, Event.getReal 1, Event.record ⟨0, 0, 0⟩,
               Event.terminate, Event.freeInstance]⟩ ∧
    ((∀ d, Event.sleep d ∈
        (setupEvents 0 1 ++
          [Event.setReal 0 0, Event.doStep 0 1, Event.getReal 1, Event.record ⟨0, 0, 0⟩,
           Event.terminate, Event.freeInstance]) → 0 < d) ∧
     (∀ n, targetAt (wClock0 0) 0 1 n ≤ wClock0 (n + 1) →
       sleepEvtsAt (wClock0 0) 0 1 wClock0 n = []) ∧
     (0 < (1:ℚ) → (∀ m, m < iterCount 0 1 1 → okAt wSlOk m) → iterCount 0 1 1 ≤ 1 →
       ∀ n, n < iterCount 0 1 1 →
         Event.doStep (simTimeAt 0 1 n) 1 ∈
           (setupEvents 0 1 ++
             [Event.setReal 0 0, Event.doStep 0 1, Event.getReal 1, Event.record ⟨0, 0, 0⟩,
              Event.terminate, Event.freeInstance]))) := by
  have h : ("u" == "y") = false := rfl
  have hrun : runWithWallClock wVars 0 1 1 (fun t => t) wSlOk wClock0 1 =
      some ⟨Except.ok (), [⟨0, 0, 0⟩], [0],
            setupEvents 0 1 ++
              [Event.setReal 0 0, Event.doStep 0 1, Event.getReal 1, Event.record ⟨0, 0, 0⟩,
               Event.terminate, Event.freeInstance]⟩ := by
    simp only [runWithWallClock, loopGo, resolveSignals, vrsLookup, wVars, wSlOk, wClock0,
      List.reverse, List.lookup, List.reverseAux, h]
    norm_num [pacerEvts, setupEvents]
  exact ⟨rfl, hrun,
    pacer_never_sleeps_nonpositive wVars 0 1 1 (fun t => t) wSlOk wClock0 1 0 1 _ rfl hrun⟩

/-- Witness for `teardown_exactly_on_normal_completion` at the same
concrete one-step run. -/
theorem teardown_exactly_on_normal_completion_witness :
    runWithWallClock wVars 0 1 1 (fun t => t) wSlOk wClock0 1 =
      some ⟨Except.ok (), [⟨0, 0, 0⟩], [0],
            setupEvents 0 1 ++
              [Event.setReal 0 0, Event.doStep 0 1, Event.getReal 1, Event.record ⟨0, 0, 0⟩,
               Event.terminate, Event.freeInstance]⟩ ∧
    (((Except.ok () : Except ProgError Unit) = Except.ok () →
      ∃ pre, (setupEvents 0 1 ++
          [Event.setReal 0 0, Event.doStep 0 1, Event.getReal 1, Event.record ⟨0, 0, 0⟩,
           Event.terminate, Event.freeInstance]) = pre ++ [Event.terminate, Event.freeInstance] ∧
        Event.terminate ∉ pre ∧ Event.freeInstance ∉ pre) ∧
     (∀ e, (Except.ok () : Except ProgError Unit) = Except.error e →
       Event.terminate ∉ (setupEvents 0 1 ++
          [Event.setReal 0 0, Event.doStep 0 1, Event.getReal 1, Event.record ⟨0, 0, 0⟩,
           Event.terminate, Event.freeInstance]) ∧
       Event.freeInstance ∉ (setupEvents 0 1 ++
          [Event.setReal 0 0, Event.doStep 0 1, Event.getReal 1, Event.record ⟨0, 0, 0⟩,
           Event.terminate, Event.freeInstance]))) := by
  have h : ("u" == "y") = false := rfl
  have hrun : runWithWallClock wVars 0 1 1 (fun t => t) wSlOk wClock0 1 =
      some ⟨Except.ok (), [⟨0, 0, 0⟩], [0],
            setupEvents 0 1 ++
              [Event.setReal 0 0, Event.doStep 0 1, Event.getReal 1, Event.record ⟨0, 0, 0⟩,
               Event.terminate, Event.freeInstance]⟩ := by
    simp only [runWithWallClock, loopGo, resolveSignals, vrsLookup, wVars, wSlOk, wClock0,
      List.reverse, List.lookup, List.reverseAux, h]
    norm_num [pacerEvts, setupEvents]
  exact ⟨hrun,
    teardown_exactly_on_normal_completion wVars 0 1 1 (fun t => t) wSlOk wClock0 1 _ hrun⟩

/-- Witness for `failure_stops_loop_with_prefix_trajectory`: the slave
rejects `doStep` at step 1 of the schedule `{start 0, stop 2, step 1}`. -/
theorem failure_stops_loop_with_prefix_trajectory_witness :
    (0:ℚ) < 1 ∧ resolveSignals wVars = Except.ok (0, 1) ∧
    simTimeAt 0 1 1 < 2 ∧ ¬ okAt wSlStep1 1 ∧
    runWithWallClock wVars 0 2 1 (fun t => t) wSlStep1 wClock0 2 =
      some ⟨Except.error (ProgError.sim (failErrAt wSlStep1 1)),
            (List.range 1).map (fun i => sampleAt 0 1 (fun t => t) wSlStep1 i),
            (List.range 2).map (fun i => targetAt (wClock0 0) 0 1 i),
            setupEvents 0 2 ++
              (((List.range 1).map
                  (fun i => blockAt 0 1 (wClock0 0) 0 1 (fun t => t) wSlStep1 wClock0 i)).flatten ++
                (sleepEvtsAt (wClock0 0) 0 1 wClock0 1 ++
                  failEvtsAt 0 1 0 1 (fun t => t) wSlStep1 1))⟩ := by
  have h1 : (0:ℚ) < 1 := by norm_num
  have h2 : resolveSignals wVars = Except.ok (0, 1) := rfl
  have h3 : simTimeAt 0 1 1 < 2 := by norm_num [simTimeAt]
  have h4 : ¬ okAt wSlStep1 1 := by
    intro hok
    obtain ⟨-, hd, -⟩ := hok
    simp [wSlStep1] at hd
  have h5 : ∀ m, m < 1 → okAt wSlStep1 m := by
    intro m hm
    have hm0 : m = 0 := by omega
    subst hm0
    exact ⟨rfl, rfl, rfl⟩
  exact ⟨h1, h2, h3, h4,
    failure_stops_loop_with_prefix_trajectory wVars 0 2 1 (fun t => t) wSlStep1 wClock0 2
      0 1 1 h1 h2 h3 h5 h4 (by omega)⟩

/-- Witness for `resolve_fails_before_any_slave_action`: a table exposing
only `u`, so resolving `y` fails before anything touches the slave. -/
theorem resolve_fails_before_any_slave_action_witness :
    resolveSignals [("u", 3)] = Except.error (ProgError.unknownSignal "y") ∧
    (runWithWallClock [("u", 3)] 0 1 1 (fun t => t) wSlOk wClock0 1 =
      some ⟨Except.error (ProgError.unknownSignal "y"), [], [], []⟩ ∧
     ∃ nm, ProgError.unknownSignal "y" = ProgError.unknownSignal nm ∧
       vrsLookup [("u", 3)] nm = none) := by
  have hres : resolveSignals [("u", 3)] = Except.error (ProgError.unknownSignal "y") := rfl
  exact ⟨hres,
    (resolve_fails_before_any_slave_action [("u", 3)] 0 1 1 (fun t => t) wSlOk wClock0 1).1
      (ProgError.unknownSignal "y") hres⟩

/-- Witness for `deadline_anchored_to_single_origin`: two runs of the
script's own schedule whose clocks agree at the origin but take very
different readings afterwards (a simulated overrun) record the same
deadline list, and the recorded deadline of step 0 matches the anchoring
formula. -/
theorem deadline_anchored_to_single_origin_witness :
    wClock0 0 = wClockJitter 0 ∧
    mainRun wVars (fun _ => 0) wSlFail0 wClock0 1 =
      some ⟨Except.error (ProgError.sim (SimError.setRealFailed 0)), [], [0],
            setupEvents 0 100 ++ [Event.setReal 0 0]⟩ ∧
    mainRun wVars (fun _ => 0) wSlFail0 wClockJitter 1 =
      some ⟨Except.error (ProgError.sim (SimError.setRealFailed 0)), [], [0],
            setupEvents 0 100 ++ [Event.setReal 0 0]⟩ ∧
    ((0:ℚ) = wClock0 0 + (simTimeAt start_time step_size 0 - start_time) ∧
     ([(0:ℚ)]) = [(0:ℚ)]) := by
  have h : ("u" == "y") = false := rfl
  have h1 : mainRun wVars (fun _ => 0) wSlFail0 wClock0 1 =
      some ⟨Except.error (ProgError.sim (SimError.setRealFailed 0)), [], [0],
            setupEvents 0 100 ++ [Event.setReal 0 0]⟩ := by
    simp only [mainRun, start_time, stop_time, step_size, runWithWallClock, loopGo,
      resolveSignals, vrsLookup, wVars, wSlFail0, wClock0,
      List.reverse, List.lookup, List.reverseAux, h]
    norm_num [pacerEvts, setupEvents]
  have h2 : mainRun wVars (fun _ => 0) wSlFail0 wClockJitter 1 =
      some ⟨Except.error (ProgError.sim (SimError.setRealFailed 0)), [], [0],
            setupEvents 0 100 ++ [Event.setReal 0 0]⟩ := by
    simp only [mainRun, start_time, stop_time, step_size, runWithWallClock, loopGo,
      resolveSignals, vrsLookup, wVars, wSlFail0, wClockJitter,
      List.reverse, List.lookup, List.reverseAux, h]
    norm_num [pacerEvts, setupEvents]
  exact ⟨rfl, h1, h2,
    deadline_anchored_to_single_origin wVars (fun _ => 0) wSlFail0 wClock0 wClockJitter
      1 0 _ _ 0 rfl h1 h2 rfl⟩

/-- Witness for `first_step_immediate_and_nonempty` on the script's own
schedule with an always-accepting slave and the frozen clock. -/
theorem first_step_immediate_and_nonempty_witness :
    resolveSignals wVars = Except.ok (0, 1) ∧
    wSlOk.setRealOk 0 = true ∧ wSlOk.doStepOk 0 = true ∧
    wSlOk.getRealVal 0 = some 0 ∧ wClock0 0 ≤ wClock0 1 ∧
    iterCount start_time stop_time step_size ≤ 1000 ∧
    ∃ r, mainRun wVars (fun t => t) wSlOk wClock0 1000 = some r ∧
      r.results ≠ [] ∧
      r.results.head? = some ⟨start_time, (fun t : ℚ => t) start_time, 0⟩ ∧
      r.targets.head? = some (wClock0 0) ∧
      ∃ tail, r.trace = setupEvents start_time stop_time ++
        Event.setReal 0 ((fun t : ℚ => t) start_time) ::
        Event.doStep start_time step_size :: tail := by
  have hfuel : iterCount start_time stop_time step_size ≤ 1000 := by
    have hN : iterCount start_time stop_time step_size = 1000 := by
      norm_num [iterCount, start_time, stop_time, step_size]
      rfl
    omega
  exact ⟨rfl, rfl, rfl, rfl, le_refl _, hfuel,
    first_step_immediate_and_nonempty wVars (fun t => t) wSlOk wClock0 1000 0 1 0
      rfl rfl rfl rfl (le_refl _) hfuel⟩

end FmuSandbox
